import Mathlib

/-!
Shallow embedding of the `redis_help` rate limiters of the go-help repository:
the fixed-window counters `RateLimiter` (decrement-based, rate_limiter.go) and
`RateLimiterV2` (increment-based), the `TokenBucketRateLimiter`
(token_bucket.go) and the `LeakyBucketRateLimiter` (leaky_bucket.go).

Each limiter performs its read-modify-write as one atomic Lua script against
Redis; we model one script execution as a pure function from the state of the
key(s) it touches to the returned tuple together with the new state.  Redis
string values holding integers are modelled as `ℤ` (Lua numbers are IEEE
doubles, but every quantity these scripts manipulate stays far inside the
exactly-representable integer range of a double, so integer arithmetic is
exact).  An absent key is `none`.  Lua's `math.floor(a/b)` and `a % b` are
floor division and floor remainder, i.e. `Int.fdiv` and `Int.fmod`.
-/

namespace GoHelp

/-- A stored fixed-window entry: the remaining-count value of the window key
together with the TTL set for it (`none` when the key was created by `INCRBY`,
which sets no expiry). -/
structure FWEntry where
  count : ℤ
  ttl : Option ℤ
deriving DecidableEq, Repr

/-- State of one fixed-window key; `none` = key absent. -/
abbrev FWState := Option FWEntry

/-- `RateLimiter.calculateExpireTime` (time unit plus a one second buffer)
followed by the `expireSeconds <= 0` floor applied in `IsAllowed` and
`SetCount` (rate_limiter.go); the time unit is taken in whole seconds. -/
def fwExpireSeconds (timeUnitSeconds : ℤ) : ℤ :=
  if timeUnitSeconds + 1 ≤ 0 then 1 else timeUnitSeconds + 1

/-- `RateLimiter.GetCurrentCount`, and equally the read-plus-default prologue
of the `IsAllowed` Lua script: a `GET` of the window key, answering `maxCount`
when the key is absent.  Does not write. -/
def fwGetCurrentCount (maxCount : ℤ) (st : FWState) : ℤ :=
  match st with
  | none => maxCount
  | some e => e.count

/-- The Lua script of `RateLimiter.IsAllowed` (rate_limiter.go): read the
window key, defaulting to `maxCount` when absent; if the remaining count is
`≤ 0` answer `{0, current_count}` without writing; otherwise decrement and
`SETEX` the new value.  Result: `((allowed, remaining), new state)`. -/
def fwIsAllowed (maxCount expireSeconds : ℤ) (st : FWState) :
    (Bool × ℤ) × FWState :=
  let currentCount := fwGetCurrentCount maxCount st
  if currentCount ≤ 0 then
    ((false, currentCount), st)
  else
    ((true, currentCount - 1), some ⟨currentCount - 1, some expireSeconds⟩)

/-- `RateLimiter.IncreaseCount`: rejects non-positive increments, otherwise
`INCRBY` (which creates an absent key with the increment as value and no
expiry, and preserves the TTL of an existing key). -/
def fwIncreaseCount (increment : ℤ) (st : FWState) : Option String × FWState :=
  if increment ≤ 0 then (some "increment must be greater than 0", st)
  else
    match st with
    | none => (none, some ⟨increment, none⟩)
    | some e => (none, some ⟨e.count + increment, e.ttl⟩)

/-- `RateLimiter.SetCount`: rejects negative counts, otherwise `SETEX`. -/
def fwSetCount (count expireSeconds : ℤ) (st : FWState) : Option String × FWState :=
  if count < 0 then (some "count cannot be negative", st)
  else (none, some ⟨count, some expireSeconds⟩)

/-- One state-changing operation of `RateLimiter`, applied to the same
window key. -/
inductive FWOp where
  | isAllowed
  | increaseCount (increment : ℤ)
  | setCount (count : ℤ)
  | reset
deriving DecidableEq, Repr

/-- Effect of one `RateLimiter` operation on the window key
(`ResetRateLimit` is a `DEL`). -/
def fwStep (maxCount expireSeconds : ℤ) (st : FWState) : FWOp → FWState
  | .isAllowed => (fwIsAllowed maxCount expireSeconds st).2
  | .increaseCount i => (fwIncreaseCount i st).2
  | .setCount c => (fwSetCount c expireSeconds st).2
  | .reset => none

/-- Run a sequence of `RateLimiter` operations against the same window key,
starting from an absent key. -/
def fwRunOps (maxCount expireSeconds : ℤ) (ops : List FWOp) : FWState :=
  ops.foldl (fwStep maxCount expireSeconds) none

/-- State of the window key after `n` consecutive `IsAllowed` calls in the
same window, starting from an absent key. -/
def fwDecisionState (maxCount expireSeconds : ℤ) : ℕ → FWState
  | 0 => none
  | n + 1 =>
      (fwIsAllowed maxCount expireSeconds (fwDecisionState maxCount expireSeconds n)).2

/-- The `(allowed, remaining)` answer of the `n`-th (1-indexed) `IsAllowed`
call in the same window, starting from an absent key. -/
def fwDecisionOutput (maxCount expireSeconds : ℤ) (n : ℕ) : Bool × ℤ :=
  (fwIsAllowed maxCount expireSeconds (fwDecisionState maxCount expireSeconds (n - 1))).1

lemma fwDecisionState_eq (N e : ℤ) (k : ℕ) (hk0 : 0 < k) (hk : (k : ℤ) ≤ N) :
    fwDecisionState N e k = some ⟨N - k, some e⟩ := by
  induction k with
  | zero => omega
  | succ n ih =>
    rcases Nat.eq_zero_or_pos n with hn | hn
    · subst hn
      simp only [fwDecisionState, fwIsAllowed, fwGetCurrentCount]
      have hN : ¬ N ≤ 0 := by push_cast at hk; omega
      simp [hN]
    · have hn' : (n : ℤ) ≤ N := by push_cast at hk ⊢; omega
      rw [fwDecisionState, ih hn hn']
      have hpos : ¬ N - (n : ℤ) ≤ 0 := by push_cast at hk; omega
      simp only [fwIsAllowed, fwGetCurrentCount, hpos, if_false]
      push_cast
      ring_nf

/-- Claim C1: with `maxCount = N`, starting from an absent key inside one window,
the `k`-th `IsAllowed` call (`1 ≤ k ≤ N`) answers `(true, N - k)` — so the
first `N` calls are allowed with `remaining` strictly decreasing from `N-1`
down to `0` — and the `(N+1)`-th call answers `(false, 0)`. -/
theorem fixed_window_bound (N e : ℤ) (k : ℕ) (hN : 0 < N) (hk1 : 1 ≤ k)
    (hkN : (k : ℤ) ≤ N) :
    fwDecisionOutput N e k = (true, N - k) ∧
    fwDecisionOutput N e (N.toNat + 1) = (false, 0) := by
  constructor
  · rcases Nat.eq_or_lt_of_le hk1 with h1 | h1
    · simp only [fwDecisionOutput, ← h1, Nat.sub_self, fwDecisionState, fwIsAllowed, fwGetCurrentCount]
      have hN' : ¬ N ≤ 0 := by omega
      simp [hN']
    · have hk0 : 0 < k - 1 := by omega
      have hkN' : ((k - 1 : ℕ) : ℤ) ≤ N := by push_cast [Nat.cast_sub hk1] at hkN ⊢; omega
      simp only [fwDecisionOutput, fwDecisionState_eq N e (k - 1) hk0 hkN']
      have hpos : ¬ N - ((k - 1 : ℕ) : ℤ) ≤ 0 := by
        push_cast [Nat.cast_sub hk1] at hkN ⊢; omega
      simp only [fwIsAllowed, fwGetCurrentCount, hpos, if_false]
      push_cast [Nat.cast_sub hk1]
      ring_nf
  · have h0 : 0 < N.toNat := by omega
    have hN' : ((N.toNat : ℕ) : ℤ) ≤ N := by omega
    simp only [fwDecisionOutput, Nat.add_sub_cancel, fwDecisionState_eq N e N.toNat h0 hN']
    have hz : N - (N.toNat : ℤ) = 0 := by omega
    simp [fwIsAllowed, fwGetCurrentCount, hz]
    omega

/-- Witness for claim C1: `FixedWindow{max=3}` — call 2 answers `(true, 1)` and call 4
answers `(false, 0)`. -/
theorem fixed_window_bound_witness :
    fwDecisionOutput 3 3 2 = (true, (3 : ℤ) - ((2 : ℕ) : ℤ)) ∧
    fwDecisionOutput 3 3 ((3 : ℤ).toNat + 1) = (false, 0) :=
  fixed_window_bound 3 3 2 (by decide) (by decide) (by decide)

/-- Boolean invariant: the stored remaining count, when the window key
exists, is nonnegative. -/
def fwStoredNonneg (st : FWState) : Bool :=
  match st with
  | none => true
  | some ent => decide (0 ≤ ent.count)

/-- Boolean invariant: the stored remaining count, when the window key
exists, is at most `maxCount`. -/
def fwStoredLe (maxCount : ℤ) (st : FWState) : Bool :=
  match st with
  | none => true
  | some ent => decide (ent.count ≤ maxCount)

/-- The fixed-window operations that stay on the decision path, with no
administrative override of the count: `IsAllowed` and `ResetRateLimit`. -/
def FWOp.capSafe : FWOp → Bool
  | .isAllowed => true
  | .reset => true
  | .increaseCount _ => false
  | .setCount _ => false

lemma fwStep_nonneg (m e : ℤ) (st : FWState) (op : FWOp)
    (h : fwStoredNonneg st = true) :
    fwStoredNonneg (fwStep m e st op) = true := by
  cases op <;> cases st <;>
    simp_all [fwStep, fwIsAllowed, fwGetCurrentCount, fwIncreaseCount,
      fwSetCount, fwStoredNonneg] <;>
    split_ifs <;> simp_all <;> omega

lemma fwRunOps_nonneg (m e : ℤ) (ops : List FWOp) :
    fwStoredNonneg (fwRunOps m e ops) = true := by
  suffices h : ∀ st, fwStoredNonneg st = true →
      fwStoredNonneg (ops.foldl (fwStep m e) st) = true from h none rfl
  induction ops with
  | nil => intro st h; simpa using h
  | cons op rest ih =>
    intro st h
    exact ih _ (fwStep_nonneg m e st op h)

lemma fwStep_le (m e : ℤ) (st : FWState) (op : FWOp) (hop : op.capSafe = true)
    (h : fwStoredLe m st = true) :
    fwStoredLe m (fwStep m e st op) = true := by
  cases op <;> simp only [FWOp.capSafe] at hop <;> cases st <;>
    simp_all [fwStep, fwIsAllowed, fwGetCurrentCount, fwStoredLe] <;>
    split_ifs <;> simp_all <;> omega

lemma fwFoldl_le (m e : ℤ) (ops : List FWOp)
    (hops : ∀ op ∈ ops, op.capSafe = true) :
    ∀ st, fwStoredLe m st = true →
      fwStoredLe m (ops.foldl (fwStep m e) st) = true := by
  induction ops with
  | nil => intro st h; simpa using h
  | cons op rest ih =>
    intro st h
    exact ih (fun o ho => hops o (by simp [ho])) _
      (fwStep_le m e st op (hops op (by simp)) h)

/-- Counterexample to claim C2 as stated: with `maxCount = 1` (and timeUnit
1s, so `expireSeconds = 2`), `SetCount 2` stores a remaining count of `2`,
and `IsAllowed` followed by `IncreaseCount 5` stores `5` — both exceed
`maxCount`, so the upper half of the claimed invariant fails for the
administrative operations. -/
theorem fw_inv_upper_counterexample :
    fwRunOps 1 2 [FWOp.setCount 2] = some ⟨2, some 2⟩ ∧
    fwStoredLe 1 (fwRunOps 1 2 [FWOp.setCount 2]) = false ∧
    fwRunOps 1 2 [FWOp.isAllowed, FWOp.increaseCount 5] = some ⟨5, some 2⟩ ∧
    fwStoredLe 1 (fwRunOps 1 2 [FWOp.isAllowed, FWOp.increaseCount 5]) = false := by
  decide

/-- Claim C2, amended: after every sequence of `IsAllowed`, `IncreaseCount`,
`SetCount` and `ResetRateLimit` on the same window key the stored remaining
count satisfies `0 ≤ remaining`; and `remaining ≤ maxCount` additionally
holds after every sequence that avoids the administrative overrides
`IncreaseCount` and `SetCount` (which may push the count above `maxCount`). -/
theorem fw_inv_amended (m e : ℤ) (ops : List FWOp) :
    fwStoredNonneg (fwRunOps m e ops) = true ∧
    ((∀ op ∈ ops, op.capSafe = true) → fwStoredLe m (fwRunOps m e ops) = true) := by
  refine ⟨fwRunOps_nonneg m e ops, fun hops => ?_⟩
  exact fwFoldl_le m e ops hops none rfl

/-- Witness for claim C2 (amended), at `maxCount = 2`, `expireSeconds = 3`,
three decision-path operations. -/
theorem fw_inv_amended_witness :
    fwStoredNonneg (fwRunOps 2 3 [FWOp.isAllowed, FWOp.reset, FWOp.isAllowed]) = true ∧
    fwStoredLe 2 (fwRunOps 2 3 [FWOp.isAllowed, FWOp.reset, FWOp.isAllowed]) = true :=
  ⟨(fw_inv_amended 2 3 [FWOp.isAllowed, FWOp.reset, FWOp.isAllowed]).1,
    (fw_inv_amended 2 3 [FWOp.isAllowed, FWOp.reset, FWOp.isAllowed]).2 (by decide)⟩

/-- Claim C8: for a validated fixed-window limiter (`maxCount > 0`), whenever
the remaining count read inside the atomic transaction is `≤ 0` on a
reachable window-key state, `IsAllowed` answers `(false, 0)` and leaves the
stored value and expiry of the window key completely unchanged. -/
theorem fw_deny_frame (m e : ℤ) (ops : List FWOp) (hm : 0 < m)
    (hread : fwGetCurrentCount m (fwRunOps m e ops) ≤ 0) :
    fwIsAllowed m e (fwRunOps m e ops) = ((false, 0), fwRunOps m e ops) := by
  have hnn := fwRunOps_nonneg m e ops
  cases hst : fwRunOps m e ops with
  | none =>
    rw [hst] at hread
    simp only [fwGetCurrentCount] at hread
    omega
  | some ent =>
    rw [hst] at hread hnn
    simp only [fwGetCurrentCount] at hread
    simp only [fwStoredNonneg, decide_eq_true_eq] at hnn
    have h0 : ent.count = 0 := by omega
    simp [fwIsAllowed, fwGetCurrentCount, h0]

/-- Witness for claim C8: `maxCount = 1` after one allowed call. -/
theorem fw_deny_frame_witness :
    fwIsAllowed 1 2 (fwRunOps 1 2 [FWOp.isAllowed]) =
      ((false, 0), fwRunOps 1 2 [FWOp.isAllowed]) :=
  fw_deny_frame 1 2 [FWOp.isAllowed] (by decide) (by decide)

/-- The used count `INCRBY` sees on the `RateLimiterV2` window key: the
stored value, or 0 when the key is absent. -/
def fwV2Used (st : Option ℤ) : ℤ :=
  match st with
  | none => 0
  | some c => c

/-- The Lua script of `RateLimiterV2.IsAllowed` (increment-based): `INCRBY`
the used-count key by 1; if the new count exceeds `maxCount`, `DECRBY` it
back and answer `{0, max_count - (new_count - 1)}`; otherwise answer
`{1, max_count - new_count}`.  State: the stored used count. -/
def fwV2IsAllowed (maxCount : ℤ) (st : Option ℤ) : (Bool × ℤ) × Option ℤ :=
  let newCount := fwV2Used st + 1
  if maxCount < newCount then
    ((false, maxCount - (newCount - 1)), some (newCount - 1))
  else
    ((true, maxCount - newCount), some newCount)

/-- Answers of `n` consecutive `RateLimiter.IsAllowed` calls in one window. -/
def fwV1Outputs (maxCount expireSeconds : ℤ) : ℕ → FWState → List (Bool × ℤ)
  | 0, _ => []
  | n + 1, st =>
      (fwIsAllowed maxCount expireSeconds st).1 ::
        fwV1Outputs maxCount expireSeconds n (fwIsAllowed maxCount expireSeconds st).2

/-- Answers of `n` consecutive `RateLimiterV2.IsAllowed` calls in one
window. -/
def fwV2Outputs (maxCount : ℤ) : ℕ → Option ℤ → List (Bool × ℤ)
  | 0, _ => []
  | n + 1, st =>
      (fwV2IsAllowed maxCount st).1 ::
        fwV2Outputs maxCount n (fwV2IsAllowed maxCount st).2

lemma fwV1V2_outputs_rel (m e : ℤ) (n : ℕ) :
    ∀ (st1 : FWState) (st2 : Option ℤ),
      fwGetCurrentCount m st1 = m - fwV2Used st2 →
      fwV1Outputs m e n st1 = fwV2Outputs m n st2 := by
  induction n with
  | zero => intro st1 st2 _; rfl
  | succ n ih =>
    intro st1 st2 h
    rw [fwV1Outputs, fwV2Outputs]
    by_cases hc : fwGetCurrentCount m st1 ≤ 0
    · have hlt : m < fwV2Used st2 + 1 := by omega
      have e1 : fwIsAllowed m e st1 = ((false, fwGetCurrentCount m st1), st1) := by
        simp [fwIsAllowed, hc]
      have e2 : fwV2IsAllowed m st2 =
          ((false, m - fwV2Used st2), some (fwV2Used st2)) := by
        simp only [fwV2IsAllowed, if_pos hlt, add_sub_cancel_right]
      rw [e1, e2]
      refine congrArg₂ _ (by rw [h]) ?_
      exact ih st1 (some (fwV2Used st2)) (by simpa [fwV2Used] using h)
    · push_neg at hc
      have hle : ¬ m < fwV2Used st2 + 1 := by omega
      have e1 : fwIsAllowed m e st1 =
          ((true, fwGetCurrentCount m st1 - 1),
            some ⟨fwGetCurrentCount m st1 - 1, some e⟩) := by
        rw [fwIsAllowed]
        simp only [if_neg (by omega : ¬ fwGetCurrentCount m st1 ≤ 0)]
      have e2 : fwV2IsAllowed m st2 =
          ((true, m - (fwV2Used st2 + 1)), some (fwV2Used st2 + 1)) := by
        simp only [fwV2IsAllowed, if_neg hle]
      rw [e1, e2]
      refine congrArg₂ _ (by rw [h]; ring_nf) ?_
      refine ih (some ⟨fwGetCurrentCount m st1 - 1, some e⟩)
        (some (fwV2Used st2 + 1)) ?_
      have g1 : fwGetCurrentCount m (some ⟨fwGetCurrentCount m st1 - 1, some e⟩) =
          fwGetCurrentCount m st1 - 1 := rfl
      have g2 : fwV2Used (some (fwV2Used st2 + 1)) = fwV2Used st2 + 1 := rfl
      rw [g1, g2, h]
      ring

/-- Claim C9: the decrement-based `RateLimiter` and the increment-based
`RateLimiterV2` are decision-equivalent — for every `maxCount` and every
number of `IsAllowed` calls falling in a single window and starting from an
absent key, the two limiters answer the same sequence of
`(allowed, remaining)` pairs. -/
theorem fw_v1_v2_equiv (m e : ℤ) (n : ℕ) :
    fwV1Outputs m e n none = fwV2Outputs m n none :=
  fwV1V2_outputs_rel m e n none none (by simp [fwGetCurrentCount, fwV2Used])

/-- Go's `Duration.Seconds()` truncated to `int64`, for a duration given in
nanoseconds (exact integer truncation; the float detour of the Go code is
exact for every duration magnitude these limiters accept). -/
def durationSeconds (ns : ℤ) : ℤ := ns.fdiv 1000000000

/-- A successfully constructed `TokenBucketRateLimiter` (the redis client is
kept abstract; `tokensPerRefill` is the defaulted value). -/
structure TokenBucketRateLimiter where
  key : String
  maxTokens : ℤ
  refillIntervalNs : ℤ
  tokensPerRefill : ℤ
deriving DecidableEq, Repr

/-- The refill prologue shared by the `IsAllowed` and `GetCurrentTokens` Lua
scripts of the token bucket: credit `math.floor(time_passed / refill_interval)`
cycles of `tokensPerRefill` tokens, clamped at `maxTokens`, and advance
`last_refill_time` to `current_time - (time_passed % refill_interval)`; no
change when the credit due is not positive.  The result is the script's
`(current_tokens, last_refill_time)` pair after this prologue;
`refillInterval` is in whole seconds, as the Go caller passes
`int(refillInterval.Seconds())`. -/
def tbRefill (maxTokens refillInterval tokensPerRefill currentTime tokens lastRefillTime : ℤ) :
    ℤ × ℤ :=
  let timePassed := currentTime - lastRefillTime
  let refillCycles := timePassed.fdiv refillInterval
  let tokensToAdd := refillCycles * tokensPerRefill
  if 0 < tokensToAdd then
    (min maxTokens (tokens + tokensToAdd), currentTime - timePassed.fmod refillInterval)
  else
    (tokens, lastRefillTime)

lemma tbRefill_of_cycle_elapsed (M I p now t last : ℤ) (hI : 0 < I) (hp : 0 < p)
    (hel : last + I ≤ now) :
    tbRefill M I p now t last =
      (min M (t + ((now - last).fdiv I) * p), last + ((now - last).fdiv I) * I) := by
  have hid := Int.fdiv_add_fmod (now - last) I
  have hmodnn : 0 ≤ (now - last).fmod I := by
    rw [Int.fmod_eq_emod _ (le_of_lt hI)]
    exact Int.emod_nonneg _ (by omega)
  have hmodlt : (now - last).fmod I < I := Int.fmod_lt_of_pos _ hI
  have hq : 1 ≤ (now - last).fdiv I := by
    by_contra hq'
    push_neg at hq'
    have hq0 : (now - last).fdiv I ≤ 0 := by omega
    have : I * (now - last).fdiv I ≤ 0 :=
      mul_nonpos_of_nonneg_of_nonpos (le_of_lt hI) hq0
    linarith
  have hadd : 0 < (now - last).fdiv I * p := mul_pos (by omega) hp
  rw [tbRefill]
  simp only [if_pos hadd]
  refine congrArg₂ _ rfl ?_
  have : (now - last).fmod I = (now - last) - I * (now - last).fdiv I := by linarith
  rw [this]
  ring

/-- State of one identity's token bucket: the `prefix:tokens:<id>` and
`prefix:time:<id>` keys (`none` = key absent). -/
structure TBState where
  tokens : Option ℤ
  lastRefill : Option ℤ
deriving DecidableEq, Repr

/-- Both token-bucket keys absent (fresh identity). -/
def TBState.empty : TBState := ⟨none, none⟩

/-- The token-key read-with-default of the token bucket scripts: the stored
token count, or `maxTokens` when the key is absent. -/
def tbReadTokens (maxTokens : ℤ) (tok : Option ℤ) : ℤ :=
  match tok with
  | none => maxTokens
  | some t => t

/-- The time-key read-with-default of the token bucket scripts: the stored
last refill time, or `current_time` when the key is absent. -/
def tbReadLastRefill (currentTime : ℤ) (lastR : Option ℤ) : ℤ :=
  match lastR with
  | none => currentTime
  | some t => t

/-- `TokenBucketRateLimiter.IsAllowed` (token_bucket.go): an empty user id is
rejected before any store access; otherwise the Lua script reads both keys
(defaults `maxTokens` and `current_time`), runs the refill prologue, then
either debits one token and `SETEX`es both keys, or — on denial — `SETEX`es
only the updated refill time.  The result mirrors Go's
`(bool, int64, error)`. -/
def tbIsAllowed (rl : TokenBucketRateLimiter) (userId : String) (st : TBState)
    (currentTime : ℤ) : (Bool × ℤ × Option String) × TBState :=
  if userId = "" then ((false, 0, some "user id cannot be empty"), st)
  else
    let currentTokens := tbReadTokens rl.maxTokens st.tokens
    let lastRefillTime := tbReadLastRefill currentTime st.lastRefill
    let r := tbRefill rl.maxTokens (durationSeconds rl.refillIntervalNs)
      rl.tokensPerRefill currentTime currentTokens lastRefillTime
    if 0 < r.1 then
      ((true, r.1 - 1, none), ⟨some (r.1 - 1), some r.2⟩)
    else
      ((false, r.1, none), ⟨st.tokens, some r.2⟩)

/-- `TokenBucketRateLimiter.GetCurrentTokens`: same prologue as `IsAllowed`,
but the recomputed pair is written back only when a positive credit was due,
and no token is debited. -/
def tbGetCurrentTokens (rl : TokenBucketRateLimiter) (userId : String) (st : TBState)
    (currentTime : ℤ) : (ℤ × Option String) × TBState :=
  if userId = "" then ((0, some "user id cannot be empty"), st)
  else
    let currentTokens := tbReadTokens rl.maxTokens st.tokens
    let lastRefillTime := tbReadLastRefill currentTime st.lastRefill
    let tokensToAdd := ((currentTime - lastRefillTime).fdiv
      (durationSeconds rl.refillIntervalNs)) * rl.tokensPerRefill
    let r := tbRefill rl.maxTokens (durationSeconds rl.refillIntervalNs)
      rl.tokensPerRefill currentTime currentTokens lastRefillTime
    if 0 < tokensToAdd then ((r.1, none), ⟨some r.1, some r.2⟩)
    else ((currentTokens, none), st)

/-- `TokenBucketRateLimiter.ResetTokens`: `DEL` of both keys. -/
def tbResetTokens (userId : String) (st : TBState) : Option String × TBState :=
  if userId = "" then (some "user id cannot be empty", st)
  else (none, TBState.empty)

/-- `TokenBucketRateLimiter.AddTokens`: rejects non-positive amounts; the Lua
script reads only the token key (default `maxTokens`) and writes the sum
clamped at `maxTokens`. -/
def tbAddTokens (rl : TokenBucketRateLimiter) (userId : String) (st : TBState)
    (tokens : ℤ) : Option String × TBState :=
  if userId = "" then (some "user id cannot be empty", st)
  else if tokens ≤ 0 then (some "tokens must be greater than 0", st)
  else
    let currentTokens := tbReadTokens rl.maxTokens st.tokens
    (none, ⟨some (min rl.maxTokens (currentTokens + tokens)), st.lastRefill⟩)

/-- `TokenBucketRateLimiter.SetTokens`: rejects negative and above-max
amounts, otherwise a plain `SETEX` of the token key. -/
def tbSetTokens (rl : TokenBucketRateLimiter) (userId : String) (st : TBState)
    (tokens : ℤ) : Option String × TBState :=
  if userId = "" then (some "user id cannot be empty", st)
  else if tokens < 0 then (some "tokens cannot be negative", st)
  else if rl.maxTokens < tokens then (some "tokens cannot exceed max tokens", st)
  else (none, ⟨some tokens, st.lastRefill⟩)

/-- One operation of `TokenBucketRateLimiter` on a single identity's keys. -/
inductive TBOp where
  | isAllowed (userId : String) (currentTime : ℤ)
  | getCurrentTokens (userId : String) (currentTime : ℤ)
  | resetTokens (userId : String)
  | addTokens (userId : String) (tokens : ℤ)
  | setTokens (userId : String) (tokens : ℤ)
deriving DecidableEq, Repr

/-- Effect of one token-bucket operation on the stored state. -/
def tbStep (rl : TokenBucketRateLimiter) (st : TBState) : TBOp → TBState
  | .isAllowed u now => (tbIsAllowed rl u st now).2
  | .getCurrentTokens u now => (tbGetCurrentTokens rl u st now).2
  | .resetTokens u => (tbResetTokens u st).2
  | .addTokens u t => (tbAddTokens rl u st t).2
  | .setTokens u t => (tbSetTokens rl u st t).2

/-- Run a sequence of token-bucket operations from a fresh identity. -/
def tbRunOps (rl : TokenBucketRateLimiter) (ops : List TBOp) : TBState :=
  ops.foldl (tbStep rl) TBState.empty

/-- Boolean invariant: the stored token count, when the token key exists,
lies in `[0, maxTokens]`. -/
def tbInv (maxTokens : ℤ) (st : TBState) : Bool :=
  match st.tokens with
  | none => true
  | some v => decide (0 ≤ v) && decide (v ≤ maxTokens)

lemma min_two_refills (M t p : ℤ) (hp : 0 ≤ p) :
    min M (t + 2 * p) = min M (min M (t + p) + p) := by
  rcases le_total (t + p) M with h | h
  · rw [min_eq_right h]
    ring_nf
  · rw [min_eq_left h, min_eq_left (le_add_of_nonneg_right hp),
      min_eq_left (by omega : M ≤ t + 2 * p)]

/-- Claim C4: in the refill step of `IsAllowed` and `GetCurrentTokens`, when
at least one full refill cycle has elapsed the stored `last_refill_time` is
advanced by exactly `cycles * refillInterval` (that is, to
`current_time - (time_passed % refill_interval)`), not to `current_time`;
consequently letting two refill cycles elapse in one refill step produces
exactly the same `(tokens, lastRefill)` result as two consecutive refill
steps of one cycle each. -/
theorem token_bucket_phase (rl : TokenBucketRateLimiter) (userId : String)
    (tok : Option ℤ) (last tokens now : ℤ) (huid : userId ≠ "")
    (hI : 0 < durationSeconds rl.refillIntervalNs) (hp : 0 < rl.tokensPerRefill)
    (hel : last + durationSeconds rl.refillIntervalNs ≤ now) :
    ((tbIsAllowed rl userId ⟨tok, some last⟩ now).2.lastRefill =
      some (last + ((now - last).fdiv (durationSeconds rl.refillIntervalNs)) *
        durationSeconds rl.refillIntervalNs)) ∧
    ((tbGetCurrentTokens rl userId ⟨tok, some last⟩ now).2.lastRefill =
      some (last + ((now - last).fdiv (durationSeconds rl.refillIntervalNs)) *
        durationSeconds rl.refillIntervalNs)) ∧
    (tbRefill rl.maxTokens (durationSeconds rl.refillIntervalNs) rl.tokensPerRefill
        (last + 2 * durationSeconds rl.refillIntervalNs) tokens last =
      tbRefill rl.maxTokens (durationSeconds rl.refillIntervalNs) rl.tokensPerRefill
        (last + 2 * durationSeconds rl.refillIntervalNs)
        (tbRefill rl.maxTokens (durationSeconds rl.refillIntervalNs) rl.tokensPerRefill
          (last + durationSeconds rl.refillIntervalNs) tokens last).1
        (tbRefill rl.maxTokens (durationSeconds rl.refillIntervalNs) rl.tokensPerRefill
          (last + durationSeconds rl.refillIntervalNs) tokens last).2) := by
  set I := durationSeconds rl.refillIntervalNs with hIdef
  have hI0 : I ≠ 0 := by omega
  have hrefill := tbRefill_of_cycle_elapsed rl.maxTokens I rl.tokensPerRefill now
    (tbReadTokens rl.maxTokens tok) last hI hp hel
  have hmodnn : 0 ≤ (now - last).fmod I := by
    rw [Int.fmod_eq_emod _ (le_of_lt hI)]
    exact Int.emod_nonneg _ hI0
  have hq : 1 ≤ (now - last).fdiv I := by
    have hid := Int.fdiv_add_fmod (now - last) I
    have hmodlt : (now - last).fmod I < I := Int.fmod_lt_of_pos _ hI
    by_contra hq'
    push_neg at hq'
    have hq0 : (now - last).fdiv I ≤ 0 := by omega
    have : I * (now - last).fdiv I ≤ 0 :=
      mul_nonpos_of_nonneg_of_nonpos (le_of_lt hI) hq0
    linarith
  refine ⟨?_, ?_, ?_⟩
  · rw [tbIsAllowed]
    simp only [if_neg huid, tbReadLastRefill]
    rw [hrefill]
    split <;> rfl
  · rw [tbGetCurrentTokens]
    simp only [if_neg huid, tbReadLastRefill]
    have hadd : 0 < (now - last).fdiv I * rl.tokensPerRefill := mul_pos (by omega) hp
    rw [hrefill]
    simp only [if_pos hadd]
  · have hone : (last + I - last) = I := by ring
    have htwo : (last + 2 * I - last) = 2 * I := by ring
    have hfdiv1 : (last + I - last).fdiv I = 1 := by
      rw [hone, Int.fdiv_eq_ediv _ (le_of_lt hI), Int.ediv_self hI0]
    have hfdiv2 : (last + 2 * I - last).fdiv I = 2 := by
      rw [htwo, Int.fdiv_eq_ediv _ (le_of_lt hI), Int.mul_ediv_cancel _ hI0]
    have hA := tbRefill_of_cycle_elapsed rl.maxTokens I rl.tokensPerRefill
      (last + 2 * I) tokens last hI hp (by omega)
    have hB := tbRefill_of_cycle_elapsed rl.maxTokens I rl.tokensPerRefill
      (last + I) tokens last hI hp (by omega)
    rw [hfdiv2] at hA
    rw [hfdiv1] at hB
    rw [hA, hB]
    have hC := tbRefill_of_cycle_elapsed rl.maxTokens I rl.tokensPerRefill
      (last + 2 * I) (min rl.maxTokens (tokens + 1 * rl.tokensPerRefill))
      (last + 1 * I) hI hp (by omega)
    have hfdiv1' : (last + 2 * I - (last + 1 * I)).fdiv I = 1 := by
      rw [(by ring : last + 2 * I - (last + 1 * I) = I),
        Int.fdiv_eq_ediv _ (le_of_lt hI), Int.ediv_self hI0]
    rw [hfdiv1'] at hC
    rw [hC]
    refine congrArg₂ _ ?_ (by ring_nf)
    simpa using min_two_refills rl.maxTokens tokens rl.tokensPerRefill (le_of_lt hp)

/-- Witness for claim C4: interval 2s, 3 tokens per refill, one cycle fully
elapsed. -/
theorem token_bucket_phase_witness :
    ((tbIsAllowed ⟨"tb", 5, 2000000000, 3⟩ "u" ⟨some 1, some 100⟩ 103).2.lastRefill =
      some (100 + ((103 - 100 : ℤ).fdiv (durationSeconds 2000000000)) *
        durationSeconds 2000000000)) ∧
    ((tbGetCurrentTokens ⟨"tb", 5, 2000000000, 3⟩ "u" ⟨some 1, some 100⟩ 103).2.lastRefill =
      some (100 + ((103 - 100 : ℤ).fdiv (durationSeconds 2000000000)) *
        durationSeconds 2000000000)) ∧
    (tbRefill 5 (durationSeconds 2000000000) 3 (100 + 2 * durationSeconds 2000000000) 1 100 =
      tbRefill 5 (durationSeconds 2000000000) 3 (100 + 2 * durationSeconds 2000000000)
        (tbRefill 5 (durationSeconds 2000000000) 3
          (100 + durationSeconds 2000000000) 1 100).1
        (tbRefill 5 (durationSeconds 2000000000) 3
          (100 + durationSeconds 2000000000) 1 100).2) :=
  token_bucket_phase ⟨"tb", 5, 2000000000, 3⟩ "u" (some 1) 100 1 103
    (by decide) (by decide) (by decide) (by decide)

lemma tbRefill_fst_bounds (M I p now t last : ℤ) (hM : 0 < M) (ht0 : 0 ≤ t)
    (ht1 : t ≤ M) :
    0 ≤ (tbRefill M I p now t last).1 ∧ (tbRefill M I p now t last).1 ≤ M := by
  simp only [tbRefill]
  split
  · dsimp only
    omega
  · exact ⟨ht0, ht1⟩

lemma tbInv_mk (M : ℤ) (tok lastR lastR' : Option ℤ) :
    tbInv M ⟨tok, lastR⟩ = tbInv M ⟨tok, lastR'⟩ := rfl

lemma tbInv_some (M v : ℤ) (lastR : Option ℤ) (h0 : 0 ≤ v) (h1 : v ≤ M) :
    tbInv M ⟨some v, lastR⟩ = true := by
  simp only [tbInv, Bool.and_eq_true, decide_eq_true_eq]
  exact ⟨h0, h1⟩

lemma tbStep_inv (rl : TokenBucketRateLimiter) (st : TBState) (op : TBOp)
    (hM : 0 < rl.maxTokens) (h : tbInv rl.maxTokens st = true) :
    tbInv rl.maxTokens (tbStep rl st op) = true := by
  obtain ⟨tok, lastR⟩ := st
  have hbounds : 0 ≤ tbReadTokens rl.maxTokens tok ∧
      tbReadTokens rl.maxTokens tok ≤ rl.maxTokens := by
    cases tok with
    | none =>
      simp only [tbReadTokens]
      exact ⟨le_of_lt hM, le_refl _⟩
    | some v =>
      simp only [tbInv, Bool.and_eq_true, decide_eq_true_eq] at h
      simp only [tbReadTokens]
      exact h
  cases op with
  | isAllowed u now =>
    by_cases hu : u = ""
    · simp only [tbStep, tbIsAllowed, if_pos hu]
      exact h
    · have hr := tbRefill_fst_bounds rl.maxTokens (durationSeconds rl.refillIntervalNs)
        rl.tokensPerRefill now (tbReadTokens rl.maxTokens tok)
        (tbReadLastRefill now lastR) hM hbounds.1 hbounds.2
      simp only [tbStep, tbIsAllowed, if_neg hu]
      split
      · next hpos => exact tbInv_some _ _ _ (by omega) (by omega)
      · cases tok with
        | none => rfl
        | some v => exact h
  | getCurrentTokens u now =>
    by_cases hu : u = ""
    · simp only [tbStep, tbGetCurrentTokens, if_pos hu]
      exact h
    · have hr := tbRefill_fst_bounds rl.maxTokens (durationSeconds rl.refillIntervalNs)
        rl.tokensPerRefill now (tbReadTokens rl.maxTokens tok)
        (tbReadLastRefill now lastR) hM hbounds.1 hbounds.2
      simp only [tbStep, tbGetCurrentTokens, if_neg hu]
      split
      · exact tbInv_some _ _ _ (by omega) (by omega)
      · exact h
  | resetTokens u =>
    by_cases hu : u = ""
    · simp only [tbStep, tbResetTokens, if_pos hu]
      exact h
    · simp only [tbStep, tbResetTokens, if_neg hu]
      rfl
  | addTokens u t =>
    by_cases hu : u = ""
    · simp only [tbStep, tbAddTokens, if_pos hu]
      exact h
    · by_cases ht : t ≤ 0
      · simp only [tbStep, tbAddTokens, if_neg hu, if_pos ht]
        exact h
      · simp only [tbStep, tbAddTokens, if_neg hu, if_neg ht]
        exact tbInv_some _ _ _ (by omega) (by omega)
  | setTokens u t =>
    by_cases hu : u = ""
    · simp only [tbStep, tbSetTokens, if_pos hu]
      exact h
    · by_cases ht : t < 0
      · simp only [tbStep, tbSetTokens, if_neg hu, if_pos ht]
        exact h
      · by_cases ht' : rl.maxTokens < t
        · simp only [tbStep, tbSetTokens, if_neg hu, if_neg ht, if_pos ht']
          exact h
        · simp only [tbStep, tbSetTokens, if_neg hu, if_neg ht, if_neg ht']
          exact tbInv_some _ _ _ (by omega) (by omega)

lemma tbFoldl_inv (rl : TokenBucketRateLimiter) (ops : List TBOp)
    (hM : 0 < rl.maxTokens) :
    ∀ st, tbInv rl.maxTokens st = true →
      tbInv rl.maxTokens (ops.foldl (tbStep rl) st) = true := by
  induction ops with
  | nil => intro st h; simpa using h
  | cons op rest ih => intro st h; exact ih _ (tbStep_inv rl st op hM h)

/-- Claim C6: for a validated token-bucket limiter (`maxTokens > 0`), after
every sequence of operations (`IsAllowed`, `GetCurrentTokens`, `AddTokens`,
`SetTokens`, `ResetTokens`) with arbitrary call times, the stored token
count stays in `[0, maxTokens]`. -/
theorem token_bucket_tokens_in_range (rl : TokenBucketRateLimiter)
    (ops : List TBOp) (hM : 0 < rl.maxTokens) :
    tbInv rl.maxTokens (tbRunOps rl ops) = true :=
  tbFoldl_inv rl ops hM TBState.empty rfl

/-- Witness for claim C6: a five-operation run against `tbWitnessConfig`'s
limiter. -/
theorem token_bucket_tokens_in_range_witness :
    tbInv 5 (tbRunOps ⟨"tb", 5, 2000000000, 2⟩
      [TBOp.isAllowed "u" 100, TBOp.addTokens "u" 2, TBOp.getCurrentTokens "u" 105,
        TBOp.setTokens "u" 1, TBOp.isAllowed "u" 109]) = true :=
  token_bucket_tokens_in_range ⟨"tb", 5, 2000000000, 2⟩
    [TBOp.isAllowed "u" 100, TBOp.addTokens "u" 2, TBOp.getCurrentTokens "u" 105,
      TBOp.setTokens "u" 1, TBOp.isAllowed "u" 109] (by decide)

/-- A successfully constructed `LeakyBucketRateLimiter` (leaky_bucket.go);
`rate` is the leak rate per second, `capacity` the bucket capacity. -/
structure LeakyBucketRateLimiter where
  key : String
  rate : ℤ
  capacity : ℤ
deriving DecidableEq, Repr

/-- State of one identity's leaky bucket: the `tokens` and `last_time` fields
of the hash at `prefix:<id>` (`none` = field absent). -/
structure LBState where
  tokens : Option ℤ
  lastTime : Option ℤ
deriving DecidableEq, Repr

/-- The `tokens` hash-field read of the leaky bucket scripts: the stored
level, or `capacity` when absent. -/
def lbReadTokens (capacity : ℤ) (tok : Option ℤ) : ℤ :=
  match tok with
  | none => capacity
  | some t => t

/-- The `last_time` hash-field read of the leaky bucket scripts: the stored
timestamp, or `0` (epoch) when absent — so the first-ever call computes a
huge elapsed time. -/
def lbReadLastTime (lastT : Option ℤ) : ℤ :=
  match lastT with
  | none => 0
  | some t => t

/-- The leak prologue shared by the leaky bucket scripts: credit
`elapsed * rate` recovered capacity and clamp at `capacity`. -/
def lbLeak (rate capacity currentTime tokens lastTime : ℤ) : ℤ :=
  min capacity (tokens + (currentTime - lastTime) * rate)

/-- `LeakyBucketRateLimiter.IsAllowed` (leaky_bucket.go): an empty user id is
rejected before any store access; otherwise the Lua script reads the hash
(defaults `capacity` and `0`), leaks, debits one token when `tokens >= 1`,
and always `HSET`s the resulting `(tokens, current_time)` pair back. -/
def lbIsAllowed (rl : LeakyBucketRateLimiter) (userId : String) (st : LBState)
    (currentTime : ℤ) : (Bool × ℤ × Option String) × LBState :=
  if userId = "" then ((false, 0, some "user id cannot be empty"), st)
  else
    let tokens := lbLeak rl.rate rl.capacity currentTime
      (lbReadTokens rl.capacity st.tokens) (lbReadLastTime st.lastTime)
    if 1 ≤ tokens then
      ((true, tokens - 1, none), ⟨some (tokens - 1), some currentTime⟩)
    else
      ((false, tokens, none), ⟨some tokens, some currentTime⟩)

/-- `LeakyBucketRateLimiter.GetCurrentTokens`: the same leak computation and
the same `HSET` write-back, without debiting a token. -/
def lbGetCurrentTokens (rl : LeakyBucketRateLimiter) (userId : String)
    (st : LBState) (currentTime : ℤ) : (ℤ × Option String) × LBState :=
  if userId = "" then ((0, some "user id cannot be empty"), st)
  else
    let tokens := lbLeak rl.rate rl.capacity currentTime
      (lbReadTokens rl.capacity st.tokens) (lbReadLastTime st.lastTime)
    ((tokens, none), ⟨some tokens, some currentTime⟩)

/-- `LeakyBucketRateLimiter.ResetBucket`: `DEL` of the hash. -/
def lbResetBucket (userId : String) (st : LBState) : Option String × LBState :=
  if userId = "" then (some "user id cannot be empty", st)
  else (none, ⟨none, none⟩)

/-- `LeakyBucketRateLimiter.AddTokens`: rejects non-positive amounts; the Lua
script leaks, then adds the requested amount clamped at `capacity`, and
writes the pair back. -/
def lbAddTokens (rl : LeakyBucketRateLimiter) (userId : String) (st : LBState)
    (tokens : ℤ) (currentTime : ℤ) : Option String × LBState :=
  if userId = "" then (some "user id cannot be empty", st)
  else if tokens ≤ 0 then (some "tokens must be greater than 0", st)
  else
    let leaked := lbLeak rl.rate rl.capacity currentTime
      (lbReadTokens rl.capacity st.tokens) (lbReadLastTime st.lastTime)
    (none, ⟨some (min rl.capacity (leaked + tokens)), some currentTime⟩)

/-- `LeakyBucketRateLimiter.SetTokens`: rejects negative and above-capacity
amounts, otherwise writes `(tokens, current_time)` directly. -/
def lbSetTokens (rl : LeakyBucketRateLimiter) (userId : String) (st : LBState)
    (tokens : ℤ) (currentTime : ℤ) : Option String × LBState :=
  if userId = "" then (some "user id cannot be empty", st)
  else if tokens < 0 then (some "tokens cannot be negative", st)
  else if rl.capacity < tokens then (some "tokens cannot exceed capacity", st)
  else (none, ⟨some tokens, some currentTime⟩)

/-- Boolean invariant: the stored level, when the `tokens` field exists, is
at most `capacity`. -/
def lbLevelLe (capacity : ℤ) (st : LBState) : Bool :=
  match st.tokens with
  | none => true
  | some v => decide (v ≤ capacity)

lemma lbLevelLe_some (cap v : ℤ) (l : Option ℤ) (h : v ≤ cap) :
    lbLevelLe cap ⟨some v, l⟩ = true := by
  simp [lbLevelLe, h]

/-- Claim C5: for every leaky-bucket limiter, every stored state and every
elapsed-time magnitude (including the first call of an identity, where the
absent state defaults to `lastUpdate = 0` and the elapsed time is huge), the
level stored by `IsAllowed`, `GetCurrentTokens` and `AddTokens` never
exceeds `capacity`. -/
theorem leaky_bucket_clamp (rl : LeakyBucketRateLimiter) (userId : String)
    (st : LBState) (now add : ℤ) (huid : userId ≠ "") (hadd : 0 < add) :
    lbLevelLe rl.capacity (lbIsAllowed rl userId st now).2 = true ∧
    lbLevelLe rl.capacity (lbGetCurrentTokens rl userId st now).2 = true ∧
    lbLevelLe rl.capacity (lbAddTokens rl userId st add now).2 = true := by
  refine ⟨?_, ?_, ?_⟩
  · rw [lbIsAllowed]
    simp only [if_neg huid, lbLeak]
    split
    · exact lbLevelLe_some _ _ _ (by omega)
    · exact lbLevelLe_some _ _ _ (by omega)
  · rw [lbGetCurrentTokens]
    simp only [if_neg huid, lbLeak]
    exact lbLevelLe_some _ _ _ (by omega)
  · rw [lbAddTokens]
    simp only [if_neg huid, if_neg (by omega : ¬ add ≤ 0), lbLeak]
    exact lbLevelLe_some _ _ _ (by omega)

/-- Witness for claim C5: a first-ever call (absent hash, `lastUpdate`
defaulting to epoch 0, elapsed time about 1.7e9 seconds) against
`LeakyBucket{rate=2, capacity=5}`. -/
theorem leaky_bucket_clamp_witness :
    lbLevelLe 5 (lbIsAllowed ⟨"lb", 2, 5⟩ "u" ⟨none, none⟩ 1700000000).2 = true ∧
    lbLevelLe 5 (lbGetCurrentTokens ⟨"lb", 2, 5⟩ "u" ⟨none, none⟩ 1700000000).2 = true ∧
    lbLevelLe 5 (lbAddTokens ⟨"lb", 2, 5⟩ "u" ⟨none, none⟩ 3 1700000000).2 = true :=
  leaky_bucket_clamp ⟨"lb", 2, 5⟩ "u" ⟨none, none⟩ 1700000000 3
    (by decide) (by decide)

/-- Claim C7: leaky-bucket inspection is idempotent at a fixed timestamp —
even though `GetCurrentTokens` commits the recomputed level and timestamp
back to the store, a second call with the same current time answers the
same value. -/
theorem leaky_bucket_inspect_idempotent (rl : LeakyBucketRateLimiter)
    (userId : String) (st : LBState) (now : ℤ) :
    (lbGetCurrentTokens rl userId ((lbGetCurrentTokens rl userId st now).2) now).1 =
      (lbGetCurrentTokens rl userId st now).1 := by
  by_cases huid : userId = ""
  · simp [lbGetCurrentTokens, huid]
  · simp only [lbGetCurrentTokens, if_neg huid, lbLeak, lbReadTokens, lbReadLastTime]
    refine congrArg₂ _ ?_ rfl
    have hz : (now - now) * rl.rate = 0 := by ring
    rw [hz]
    omega

/-- Claim C10: every token-bucket and leaky-bucket operation called with an
empty user id answers its validation error — `(false, 0, error)` for
`IsAllowed` — before executing any store operation, leaving the stored state
untouched. -/
theorem empty_user_id_rejected (rl : TokenBucketRateLimiter)
    (lb : LeakyBucketRateLimiter) (st : TBState) (ls : LBState) (now k : ℤ) :
    tbIsAllowed rl "" st now = ((false, 0, some "user id cannot be empty"), st) ∧
    tbGetCurrentTokens rl "" st now = ((0, some "user id cannot be empty"), st) ∧
    tbResetTokens "" st = (some "user id cannot be empty", st) ∧
    tbAddTokens rl "" st k = (some "user id cannot be empty", st) ∧
    tbSetTokens rl "" st k = (some "user id cannot be empty", st) ∧
    lbIsAllowed lb "" ls now = ((false, 0, some "user id cannot be empty"), ls) ∧
    lbGetCurrentTokens lb "" ls now = ((0, some "user id cannot be empty"), ls) ∧
    lbResetBucket "" ls = (some "user id cannot be empty", ls) ∧
    lbAddTokens lb "" ls k now = (some "user id cannot be empty", ls) ∧
    lbSetTokens lb "" ls k now = (some "user id cannot be empty", ls) := by
  refine ⟨?_, ?_, ?_, ?_, ?_, ?_, ?_, ?_, ?_, ?_⟩ <;>
    simp [tbIsAllowed, tbGetCurrentTokens, tbResetTokens, tbAddTokens,
      tbSetTokens, lbIsAllowed, lbGetCurrentTokens, lbResetBucket,
      lbAddTokens, lbSetTokens]

end GoHelp
